import Mathlib

/-!
Verification of the MASIS multi-agent orchestration core against its
natural-language specification.

The Lean definitions below are a shallow embedding of the Python sources:
  * `masis/schemas.py`   — data model (SubTask, TaskPlan, Citation, ...)
  * `masis/agents/supervisor.py` — `_find_next_task`, `supervisor_route`,
    and the post-LLM dispatch tail of `supervisor_plan`
  * `masis/agents/synthesizer.py` — confidence aggregation
  * `masis/citation_engine.py` — `CitationEngine.validate_report`
  * `masis/rag.py`       — reciprocal-rank fusion and the
    lost-in-the-middle reorder of `hybrid_search`
  * `masis/state.py` / `masis/graph.py` — message-log merging and the
    graph routing predicates

Python floats are modelled as rationals (ℚ), Python ints as ℤ, Python
dicts keyed by strings as insertion-ordered association lists, and code
that raises an exception returns `Except String`.
-/

namespace Masis

/-- Task lifecycle states, mirroring `TaskStatus` in `schemas.py`. -/
inductive TaskStatus where
  | pending
  | in_progress
  | completed
  | failed
  | needs_human_input
deriving DecidableEq

/-- Agent roles, mirroring `AgentRole` in `schemas.py`. -/
inductive AgentRole where
  | supervisor
  | researcher
  | skeptic
  | synthesizer
  | human
deriving DecidableEq

/-- A work item of the plan, mirroring `SubTask` in `schemas.py`.
The uuid-generated `task_id` default is supplied explicitly by callers. -/
structure SubTask where
  task_id : String
  description : String
  assigned_to : AgentRole
  status : TaskStatus := TaskStatus.pending
  depends_on : List String := []
  result : Option String := none
  error : Option String := none
  retries : Int := 0
deriving DecidableEq

/-- The DAG of sub-tasks, mirroring `TaskPlan` in `schemas.py`. -/
structure TaskPlan where
  plan_id : String
  original_query : String
  sub_tasks : List SubTask
  created_at : String := ""
deriving DecidableEq

/-- The set of ids of completed tasks, as built at the top of
`_find_next_task` (`supervisor.py`); the Python set is modelled as the
list of ids, only membership is ever used. -/
def completedIds (plan : TaskPlan) : List String :=
  (plan.sub_tasks.filter (fun t => t.status == TaskStatus.completed)).map
    (fun t => t.task_id)

/-- The selection test of the scheduler loop in `_find_next_task`:
status is `pending` and every dependency is among the completed ids. -/
def eligible (completed : List String) (t : SubTask) : Bool :=
  t.status == TaskStatus.pending &&
    t.depends_on.all (fun d => completed.contains d)

/-- The scan loop of `_find_next_task`: walk the task list in order,
flip the first eligible task to `in_progress`, and return it together
with the updated list (Python mutates the task in place). -/
def findNextAux (completed : List String) :
    List SubTask → Option SubTask × List SubTask
  | [] => (none, [])
  | t :: ts =>
    if eligible completed t then
      let t' := { t with status := TaskStatus.in_progress }
      (some t', t' :: ts)
    else
      let r := findNextAux completed ts
      (r.1, t :: r.2)

/-- Function `_find_next_task(plan)` from `supervisor.py`: returns the selected
task (already flipped to `in_progress`) and the plan after the in-place
mutation. -/
def findNextTask (plan : TaskPlan) : Option SubTask × TaskPlan :=
  let r := findNextAux (completedIds plan) plan.sub_tasks
  (r.1, { plan with sub_tasks := r.2 })

/-- The first component of the scan is the first eligible task, with its
status flipped. -/
theorem findNextAux_fst (completed : List String) (ts : List SubTask) :
    (findNextAux completed ts).1 =
      (ts.find? (eligible completed)).map
        (fun t => { t with status := TaskStatus.in_progress }) := by
  induction ts with
  | nil => rfl
  | cons t ts ih =>
    by_cases h : eligible completed t
    · simp [findNextAux, h, List.find?_cons]
    · simp [findNextAux, h, List.find?_cons, ih]

/-- When no task is eligible, the scan leaves the list unchanged. -/
theorem findNextAux_snd_of_none (completed : List String) (ts : List SubTask)
    (h : ts.find? (eligible completed) = none) :
    (findNextAux completed ts).2 = ts := by
  induction ts with
  | nil => rfl
  | cons t ts ih =>
    rw [List.find?_cons] at h
    by_cases he : eligible completed t
    · simp [he] at h
    · simp [findNextAux, he]
      exact ih (by simpa [he] using h)

/-- Predicate `eligible` unfolded to a proposition. -/
theorem eligible_eq_true_iff (c : List String) (t : SubTask) :
    eligible c t = true ↔
      (t.status = TaskStatus.pending ∧ ∀ d ∈ t.depends_on, d ∈ c) := by
  simp [eligible, List.all_eq_true]

/-- When a task is selected, the list decomposes around the first
eligible task, which is the only element that changes. -/
theorem findNextAux_snd_of_some (completed : List String) (ts : List SubTask)
    (t : SubTask) (h : ts.find? (eligible completed) = some t) :
    ∃ pre post, ts = pre ++ t :: post ∧
      (∀ u ∈ pre, ¬ eligible completed u = true) ∧
      eligible completed t = true ∧
      (findNextAux completed ts).2 =
        pre ++ { t with status := TaskStatus.in_progress } :: post := by
  induction ts with
  | nil => simp at h
  | cons u ts ih =>
    rw [List.find?_cons] at h
    by_cases he : eligible completed u
    · simp [he] at h
      subst h
      exact ⟨[], ts, by simp, by simp, he, by simp [findNextAux, he]⟩
    · simp [he] at h
      obtain ⟨pre, post, hts, hpre, helig, hsnd⟩ := ih h
      refine ⟨u :: pre, post, by simp [hts], ?_, helig, ?_⟩
      · intro v hv
        rcases List.mem_cons.mp hv with rfl | hv
        · simpa using he
        · exact hpre v hv
      · simp [findNextAux, he, hsnd]

/-- A status flipped to `in_progress` is never eligible again. -/
theorem eligible_flip_false (c : List String) (t : SubTask) :
    eligible c { t with status := TaskStatus.in_progress } = false := by
  simp [eligible]

/-- First projection of `findNextTask`, via the scan characterisation. -/
theorem findNextTask_fst (plan : TaskPlan) :
    (findNextTask plan).1 =
      (plan.sub_tasks.find? (eligible (completedIds plan))).map
        (fun t => { t with status := TaskStatus.in_progress }) :=
  findNextAux_fst _ _

/-- Second projection of `findNextTask`. -/
theorem findNextTask_snd (plan : TaskPlan) :
    (findNextTask plan).2 =
      { plan with
        sub_tasks := (findNextAux (completedIds plan) plan.sub_tasks).2 } :=
  rfl

/-- The first call leaves the completed-id set unchanged: it only turns a
`pending` task into `in_progress`, and neither status is `completed`. -/
theorem completedIds_findNextTask (plan : TaskPlan) :
    completedIds (findNextTask plan).2 = completedIds plan := by
  rcases h : plan.sub_tasks.find? (eligible (completedIds plan)) with _ | t
  · have hsnd := findNextAux_snd_of_none (completedIds plan) plan.sub_tasks h
    rw [findNextTask_snd, hsnd]
  · obtain ⟨pre, post, hts, _, helig, hsnd⟩ :=
      findNextAux_snd_of_some (completedIds plan) plan.sub_tasks t h
    have hpend : t.status = TaskStatus.pending :=
      ((eligible_eq_true_iff _ t).mp helig).1
    have h1 : (t.status == TaskStatus.completed) = false := by
      rw [hpend]; rfl
    have h2 : (({ t with status := TaskStatus.in_progress } : SubTask).status ==
        TaskStatus.completed) = false := rfl
    rw [findNextTask_snd, hsnd]
    simp only [completedIds]
    conv_rhs => rw [hts]
    simp [List.filter_append, List.filter_cons, h1, h2]

section ClaimC2

/-- Claim C2: `findNextTask` returns the first (insertion-order) SubTask
that is `pending` with all dependencies completed, after flipping its
status to `in_progress`; it returns `none` exactly when no pending task
has all dependencies completed; and a returned task always has its
`depends_on` contained in the completed task ids. -/
theorem claim_c2_scheduler_selection (plan : TaskPlan) :
    ((findNextTask plan).1 =
      (plan.sub_tasks.find? (eligible (completedIds plan))).map
        (fun t => { t with status := TaskStatus.in_progress })) ∧
    ((findNextTask plan).1 = none ↔
      ∀ t ∈ plan.sub_tasks, ¬ (t.status = TaskStatus.pending ∧
        ∀ d ∈ t.depends_on, d ∈ completedIds plan)) ∧
    (∀ t, (findNextTask plan).1 = some t →
      ∀ d ∈ t.depends_on, d ∈ completedIds plan) := by
  refine ⟨findNextTask_fst plan, ?_, ?_⟩
  · rw [findNextTask_fst, Option.map_eq_none', List.find?_eq_none]
    constructor
    · intro h t ht hc
      exact h t ht ((eligible_eq_true_iff _ t).mpr hc)
    · intro h t ht he
      exact h t ht ((eligible_eq_true_iff _ t).mp he)
  · intro t ht
    rw [findNextTask_fst] at ht
    rcases hf : plan.sub_tasks.find? (eligible (completedIds plan)) with _ | t₀
    · rw [hf] at ht; simp at ht
    · rw [hf] at ht
      have helig : eligible (completedIds plan) t₀ = true :=
        List.find?_some hf
      have hdeps := ((eligible_eq_true_iff _ t₀).mp helig).2
      have ht' : ({ t₀ with status := TaskStatus.in_progress } : SubTask) = t := by
        simpa using ht
      intro d hd
      apply hdeps
      rw [← ht'] at hd
      exact hd

/-- A two-task plan where the second task depends on an already-completed
first task. -/
def planWithDep : TaskPlan :=
  { plan_id := "plan-dep", original_query := "q",
    sub_tasks :=
      [ { task_id := "task-1", description := "research",
          assigned_to := AgentRole.researcher,
          status := TaskStatus.completed },
        { task_id := "task-2", description := "critique",
          assigned_to := AgentRole.skeptic,
          depends_on := ["task-1"] } ] }

/-- Concrete instantiation of claim C2: on `planWithDep` the scheduler
returns the dependent task (flipped to `in_progress`), and its
dependencies are indeed all completed. -/
theorem claim_c2_scheduler_selection_witness :
    (findNextTask planWithDep).1 =
      some { task_id := "task-2", description := "critique",
             assigned_to := AgentRole.skeptic,
             status := TaskStatus.in_progress,
             depends_on := ["task-1"] } ∧
    (∀ d ∈ ["task-1"], d ∈ completedIds planWithDep) := by
  refine ⟨by decide, ?_⟩
  have h := (claim_c2_scheduler_selection planWithDep).2.2
    { task_id := "task-2", description := "critique",
      assigned_to := AgentRole.skeptic,
      status := TaskStatus.in_progress,
      depends_on := ["task-1"] } (by decide)
  exact h

end ClaimC2

section ClaimC10

/-- Claim C10 (frame property): `findNextTask` mutates at most one
SubTask — the one it returns — and only its `status` field, from
`pending` to `in_progress`; every other task and every other field of
the plan is unchanged, and when it returns `none` the plan is entirely
unchanged. -/
theorem claim_c10_findNextTask_frame (plan : TaskPlan) :
    ((findNextTask plan).1 = none → (findNextTask plan).2 = plan) ∧
    (∀ t', (findNextTask plan).1 = some t' →
      ∃ pre t post,
        plan.sub_tasks = pre ++ t :: post ∧
        t.status = TaskStatus.pending ∧
        t' = { t with status := TaskStatus.in_progress } ∧
        (findNextTask plan).2.sub_tasks =
          pre ++ { t with status := TaskStatus.in_progress } :: post ∧
        (findNextTask plan).2.plan_id = plan.plan_id ∧
        (findNextTask plan).2.original_query = plan.original_query ∧
        (findNextTask plan).2.created_at = plan.created_at ∧
        t'.task_id = t.task_id ∧ t'.description = t.description ∧
        t'.assigned_to = t.assigned_to ∧ t'.depends_on = t.depends_on ∧
        t'.result = t.result ∧ t'.error = t.error ∧
        t'.retries = t.retries) := by
  constructor
  · intro h
    rw [findNextTask_fst, Option.map_eq_none'] at h
    have hsnd := findNextAux_snd_of_none (completedIds plan) plan.sub_tasks h
    rw [findNextTask_snd, hsnd]
  · intro t' ht'
    rw [findNextTask_fst] at ht'
    rcases hf : plan.sub_tasks.find? (eligible (completedIds plan)) with _ | t
    · rw [hf] at ht'; simp at ht'
    · rw [hf] at ht'
      have ht'' : ({ t with status := TaskStatus.in_progress } : SubTask) = t' := by
        simpa using ht'
      subst ht''
      obtain ⟨pre, post, hts, _, helig, hsnd⟩ :=
        findNextAux_snd_of_some (completedIds plan) plan.sub_tasks t hf
      have hpend : t.status = TaskStatus.pending :=
        ((eligible_eq_true_iff _ t).mp helig).1
      exact ⟨pre, t, post, hts, hpend, rfl, hsnd,
        rfl, rfl, rfl, rfl, rfl, rfl, rfl, rfl, rfl, rfl⟩

/-- Concrete instantiation of claim C10 on `planWithDep`: the plan after
the call differs from the original only in the selected task status. -/
theorem claim_c10_findNextTask_frame_witness :
    (findNextTask planWithDep).2.sub_tasks =
      [ { task_id := "task-1", description := "research",
          assigned_to := AgentRole.researcher,
          status := TaskStatus.completed },
        { task_id := "task-2", description := "critique",
          assigned_to := AgentRole.skeptic,
          status := TaskStatus.in_progress,
          depends_on := ["task-1"] } ] ∧
    (findNextTask planWithDep).2.plan_id = planWithDep.plan_id := by
  obtain ⟨pre, t, post, _, _, _, hsnd, hpid, -⟩ :=
    (claim_c10_findNextTask_frame planWithDep).2
      { task_id := "task-2", description := "critique",
        assigned_to := AgentRole.skeptic,
        status := TaskStatus.in_progress,
        depends_on := ["task-1"] } (by decide)
  exact ⟨by decide, hpid⟩

end ClaimC10

section ClaimC5

/-- Counting eligible tasks; the second `findNextTask` call returns
`none` exactly when at most one task was eligible to begin with. -/
theorem findNextTask_twice_none_iff (plan : TaskPlan) :
    (findNextTask (findNextTask plan).2).1 = none ↔
      plan.sub_tasks.countP (eligible (completedIds plan)) ≤ 1 := by
  have hc := completedIds_findNextTask plan
  rcases hf : plan.sub_tasks.find? (eligible (completedIds plan)) with _ | t
  · have hsnd := findNextAux_snd_of_none (completedIds plan) plan.sub_tasks hf
    have hP : (findNextTask plan).2 = plan := by rw [findNextTask_snd, hsnd]
    have hcount : plan.sub_tasks.countP (eligible (completedIds plan)) = 0 :=
      List.countP_eq_zero.mpr (List.find?_eq_none.mp hf)
    rw [hP, findNextTask_fst, hf]
    simp [hcount]
  · obtain ⟨pre, post, hts, hpre, helig, hsnd⟩ :=
      findNextAux_snd_of_some (completedIds plan) plan.sub_tasks t hf
    have hsub : (findNextTask plan).2.sub_tasks =
        pre ++ { t with status := TaskStatus.in_progress } :: post := hsnd
    have h0 : pre.countP (eligible (completedIds plan)) = 0 :=
      List.countP_eq_zero.mpr hpre
    have hone : (if eligible (completedIds plan) t then 1 else 0) = 1 := by
      simp [helig]
    have hcount : plan.sub_tasks.countP (eligible (completedIds plan)) =
        1 + post.countP (eligible (completedIds plan)) := by
      rw [hts, List.countP_append, List.countP_cons, h0, hone]
      omega
    rw [findNextTask_fst, Option.map_eq_none', List.find?_eq_none, hc, hsub]
    constructor
    · intro h
      have hpost : ∀ u ∈ post, ¬ eligible (completedIds plan) u = true := by
        intro u hu
        exact h u (by simp [hu])
      have hpost0 : post.countP (eligible (completedIds plan)) = 0 :=
        List.countP_eq_zero.mpr hpost
      omega
    · intro h u hu
      have hpost0 : post.countP (eligible (completedIds plan)) = 0 := by omega
      have hpost := List.countP_eq_zero.mp hpost0
      rcases List.mem_append.mp hu with hu | hu
      · exact hpre u hu
      · rcases List.mem_cons.mp hu with rfl | hu
        · simp [eligible_flip_false]
        · exact hpost u hu

/-- Two independent pending tasks: a counterexample plan for claim C5. -/
def planTwoPending : TaskPlan :=
  { plan_id := "plan-2p", original_query := "q",
    sub_tasks :=
      [ { task_id := "task-a", description := "research A",
          assigned_to := AgentRole.researcher },
        { task_id := "task-b", description := "research B",
          assigned_to := AgentRole.researcher } ] }

/-- Counterexample to claim C5 as stated: with two independent pending
tasks, the second back-to-back `findNextTask` call returns the second
task, not `none`. -/
theorem claim_c5_counterexample :
    (findNextTask planTwoPending).1 =
      some { task_id := "task-a", description := "research A",
             assigned_to := AgentRole.researcher,
             status := TaskStatus.in_progress } ∧
    (findNextTask (findNextTask planTwoPending).2).1 =
      some { task_id := "task-b", description := "research B",
             assigned_to := AgentRole.researcher,
             status := TaskStatus.in_progress } ∧
    (findNextTask (findNextTask planTwoPending).2).1 ≠ none := by
  refine ⟨by decide, by decide, by decide⟩

/-- Claim C5 (amended): calling `findNextTask` twice with no other
mutation in between yields `none` on the second call exactly when at
most one task of the plan was eligible (pending with all dependencies
completed); the first call consumes one eligible task, so any further
eligible task is returned by the second call instead of `none`. -/
theorem claim_c5_second_call_none_iff (plan : TaskPlan) :
    (findNextTask (findNextTask plan).2).1 = none ↔
      plan.sub_tasks.countP (eligible (completedIds plan)) ≤ 1 :=
  findNextTask_twice_none_iff plan

end ClaimC5

/-! Supervisor routing state machine (`supervisor.py`, `graph.py`) -/

/-- A single issue reported by the Skeptic, mirroring `CritiqueIssue` in
`schemas.py`; the supervisor consults only `description`. -/
structure CritiqueIssue where
  issue_type : String := ""
  description : String
  affected_claim : String := ""
  severity : String := "medium"
  suggested_action : String := ""
deriving DecidableEq

/-- Output of the Skeptic, mirroring `CritiqueResult` in `schemas.py`. -/
structure CritiqueResult where
  issues : List CritiqueIssue := []
  overall_assessment : String := ""
  passes_review : Bool := false
  confidence_score : ℚ := 0
deriving DecidableEq

/-- The run state (`MASISState` in `state.py`), restricted to the fields
the supervisor and the graph's routing predicates read or write.
Whiteboard messages are modelled by their sender roles; the content
strings (LLM output) do not influence any control flow. -/
structure MASISState where
  original_query : String := ""
  clarified_query : String := ""
  task_plan : Option TaskPlan := none
  current_task_id : Option String := none
  messages : List AgentRole := []
  critique : Option CritiqueResult := none
  skeptic_rounds : Int := 0
  next_agent : Option AgentRole := none
  should_end : Bool := false
  error_log : List String := []
  awaiting_human : Bool := false
  iteration_count : Int := 0
  max_iterations : Int := 15
deriving DecidableEq

/-- The completion-marking loop at the top of `supervisor_route`: every
task whose id equals `current_task_id` and whose status is `in_progress`
becomes `completed`.  `if state.current_task_id:` is Python truthiness,
so `none` and the empty string both skip the loop. -/
def markCurrentCompleted (cur : Option String) (tasks : List SubTask) :
    List SubTask :=
  match cur with
  | none => tasks
  | some cid =>
    if cid = "" then tasks
    else tasks.map (fun t =>
      if t.task_id == cid && t.status == TaskStatus.in_progress then
        { t with status := TaskStatus.completed }
      else t)

/-- The retry test of the scan in `supervisor_route`: status `failed`
and fewer than 2 retries. -/
def retryable (t : SubTask) : Bool :=
  t.status == TaskStatus.failed && decide (t.retries < 2)

/-- The retry scan of `supervisor_route`: find the first failed task
with `retries < 2`, increment its retries, reset it to `pending`
(in-place in Python) and return it with the updated list; `none` when no
task is retryable. -/
def retryScan : List SubTask → Option (SubTask × List SubTask)
  | [] => none
  | t :: ts =>
    if retryable t then
      let t' := { t with retries := t.retries + 1,
                         status := TaskStatus.pending }
      some (t', t' :: ts)
    else
      match retryScan ts with
      | some r => some (r.1, t :: r.2)
      | none => none

/-- Node `supervisor_route` (`supervisor.py`) composed with the graph node
wrapper of `graph.py`, which merges the returned partial update into the
state and appends the returned messages. The uuid-generated ids of the
two loop-back tasks are passed in as `fresh1` and `fresh2`;
`maxSkepticChallenges` is `cfg.agents.max_skeptic_challenges`. -/
def supervisorRoute (maxSkepticChallenges : Int) (fresh1 fresh2 : String)
    (s : MASISState) : MASISState :=
  match s.task_plan with
  | none => { s with should_end := true,
                     error_log := ["No task plan exists"] }
  | some plan =>
    if s.iteration_count ≥ s.max_iterations then
      { s with should_end := true,
               messages := s.messages ++ [AgentRole.supervisor] }
    else
      let plan1 : TaskPlan :=
        { plan with
          sub_tasks := markCurrentCompleted s.current_task_id plan.sub_tasks }
      let nextRoute : MASISState :=
        let fr := findNextTask plan1
        match fr.1 with
        | none =>
          { s with task_plan := some fr.2,
                   should_end := true,
                   iteration_count := s.iteration_count + 1,
                   messages := s.messages ++ [AgentRole.supervisor] }
        | some t =>
          { s with task_plan := some fr.2,
                   current_task_id := some t.task_id,
                   next_agent := some t.assigned_to,
                   iteration_count := s.iteration_count + 1,
                   messages := s.messages ++ [AgentRole.supervisor] }
      match retryScan plan1.sub_tasks with
      | some r =>
        { s with task_plan := some { plan1 with sub_tasks := r.2 },
                 current_task_id := some r.1.task_id,
                 next_agent := some r.1.assigned_to,
                 iteration_count := s.iteration_count + 1,
                 messages := s.messages ++ [AgentRole.supervisor] }
      | none =>
        match s.critique with
        | some cr =>
          if cr.passes_review = false ∧
              s.skeptic_rounds < maxSkepticChallenges then
            let gaps := String.intercalate "; "
              ((cr.issues.take 3).map (fun i => i.description))
            let newTask : SubTask :=
              { task_id := fresh1,
                description := "Address skeptic concerns: " ++ gaps,
                assigned_to := AgentRole.researcher }
            let skTask : SubTask :=
              { task_id := fresh2,
                description := "Re-validate after additional research",
                assigned_to := AgentRole.skeptic,
                depends_on := [fresh1] }
            { s with
                task_plan := some { plan1 with
                  sub_tasks := plan1.sub_tasks ++ [newTask, skTask] },
                current_task_id := some fresh1,
                next_agent := some AgentRole.researcher,
                iteration_count := s.iteration_count + 1,
                critique := none,
                messages := s.messages ++ [AgentRole.supervisor] }
          else nextRoute
        | none => nextRoute

/-- Value `AgentRole.value` of the Python `str` enum. -/
def roleName : AgentRole → String
  | AgentRole.supervisor => "supervisor"
  | AgentRole.researcher => "researcher"
  | AgentRole.skeptic => "skeptic"
  | AgentRole.synthesizer => "synthesizer"
  | AgentRole.human => "human"

/-- Predicate `_should_continue_after_route` in `graph.py`: decide the next graph
node after the supervisor's routing step. -/
def shouldContinueAfterRoute (s : MASISState) : String :=
  if s.should_end then "end"
  else if s.awaiting_human then "hitl_pause"
  else
    match s.next_agent with
    | some a => roleName a
    | none => "end"

/-- Predicate `_should_continue_after_plan` in `graph.py`: decide the next graph
node after the supervisor's planning step.  Note that it consults only
`awaiting_human` and `next_agent` — the iteration ceiling is not
checked here. -/
def shouldContinueAfterPlan (s : MASISState) : String :=
  if s.awaiting_human then "hitl_pause"
  else
    match s.next_agent with
    | some a => roleName a
    | none => "end"

/-- The post-LLM tail of `supervisor_plan` (`supervisor.py` lines
97-136), composed with the graph node wrapper: the clarified query and
the decomposed task plan are produced by the external reasoning
capability and are therefore inputs here.  `hitlEnabled` is
`cfg.hitl.enabled`. -/
def supervisorPlanDispatch (hitlEnabled : Bool) (clarified : String)
    (rawPlan : TaskPlan) (s : MASISState) : MASISState :=
  let task_plan := { rawPlan with original_query := clarified }
  let hitl_tasks := task_plan.sub_tasks.filter
    (fun t => t.status == TaskStatus.needs_human_input)
  if !hitl_tasks.isEmpty && hitlEnabled then
    { s with clarified_query := clarified,
             task_plan := some task_plan,
             awaiting_human := true,
             messages := s.messages ++ [AgentRole.supervisor] }
  else
    let fr := findNextTask task_plan
    { s with clarified_query := clarified,
             task_plan := some fr.2,
             current_task_id := fr.1.map (fun t => t.task_id),
             next_agent := fr.1.map (fun t => t.assigned_to),
             messages := s.messages ++ [AgentRole.supervisor] }

/-- Predicate `retryable` unfolded to a proposition. -/
theorem retryable_eq_true_iff (t : SubTask) :
    retryable t = true ↔
      (t.status = TaskStatus.failed ∧ t.retries < 2) := by
  simp [retryable]

/-- If the retry scan finds nothing, no task is retryable. -/
theorem retryScan_none_forall (ts : List SubTask)
    (h : retryScan ts = none) : ∀ t ∈ ts, retryable t = false := by
  induction ts with
  | nil => intro t ht; simp at ht
  | cons t ts ih =>
    simp only [retryScan] at h
    by_cases hb : retryable t = true
    · rw [if_pos hb] at h; simp at h
    · have hb' : retryable t = false := eq_false_of_ne_true hb
      rw [if_neg hb] at h
      cases hr : retryScan ts with
      | some r => rw [hr] at h; simp at h
      | none =>
        intro u hu
        rcases List.mem_cons.mp hu with rfl | hu
        · exact hb'
        · exact ih hr u hu

/-- If the retry scan succeeds, the task list decomposes around the
first retryable task, which is the only element that changes: its
retries are incremented and its status is reset to `pending`. -/
theorem retryScan_some_decomp (ts : List SubTask) (r : SubTask × List SubTask)
    (h : retryScan ts = some r) :
    ∃ pre t post, ts = pre ++ t :: post ∧
      (∀ u ∈ pre, retryable u = false) ∧
      retryable t = true ∧
      r.1 = { t with retries := t.retries + 1,
                     status := TaskStatus.pending } ∧
      r.2 = pre ++ { t with retries := t.retries + 1,
                            status := TaskStatus.pending } :: post := by
  induction ts generalizing r with
  | nil => simp [retryScan] at h
  | cons t ts ih =>
    simp only [retryScan] at h
    by_cases hb : retryable t = true
    · rw [if_pos hb] at h
      have hx := Option.some.inj h
      exact ⟨[], t, ts, by simp, by simp, hb, by rw [← hx], by rw [← hx]; rfl⟩
    · have hb' : retryable t = false := eq_false_of_ne_true hb
      rw [if_neg hb] at h
      cases hr : retryScan ts with
      | none => rw [hr] at h; simp at h
      | some r' =>
        rw [hr] at h
        have hx := Option.some.inj h
        obtain ⟨pre, t₀, post, hts, hpre, hb₀, h1, h2⟩ := ih r' hr
        refine ⟨t :: pre, t₀, post, by rw [hts]; rfl, ?_, hb₀, ?_, ?_⟩
        · intro u hu
          rcases List.mem_cons.mp hu with rfl | hu
          · exact hb'
          · exact hpre u hu
        · rw [← hx]; exact h1
        · rw [← hx]; simp [h2]

/-- The task list of the plan held by a state (`[]` when absent);
observer used to state plan-preservation facts. -/
def planTasksOf (s : MASISState) : List SubTask :=
  match s.task_plan with
  | some p => p.sub_tasks
  | none => []

/-- Scheduler `findNextTask` preserves membership of every task that is not
`pending` (it only rewrites one pending task). -/
theorem findNextTask_mem_preserved (plan : TaskPlan) (u : SubTask)
    (hu : u ∈ plan.sub_tasks) (hust : ¬ u.status = TaskStatus.pending) :
    u ∈ (findNextTask plan).2.sub_tasks := by
  rcases hf : plan.sub_tasks.find? (eligible (completedIds plan)) with _ | t
  · have hs : (findNextTask plan).2.sub_tasks = plan.sub_tasks :=
      findNextAux_snd_of_none _ _ hf
    rw [hs]; exact hu
  · obtain ⟨pre, post, hts, _, helig, hsnd⟩ :=
      findNextAux_snd_of_some (completedIds plan) plan.sub_tasks t hf
    have hs : (findNextTask plan).2.sub_tasks =
        pre ++ { t with status := TaskStatus.in_progress } :: post := hsnd
    rw [hs]
    rw [hts] at hu
    rcases List.mem_append.mp hu with h | h
    · exact List.mem_append.mpr (Or.inl h)
    · rcases List.mem_cons.mp h with rfl | h
      · exact absurd ((eligible_eq_true_iff _ u).mp helig).1 hust
      · exact List.mem_append.mpr (Or.inr (List.mem_cons_of_mem _ h))

section ClaimC3

/-- Claim C3 (amended): at every ROUTING entry whose iteration counter
has reached the configured maximum, the supervisor forces termination
(`should_end`) and the graph transitions to END, routing to no
specialist — in particular with `max_iterations = 0` every ROUTING entry
terminates.  The PLANNING dispatch, however, performs no ceiling check:
whenever it selects a first task it routes the graph to that specialist
regardless of `iteration_count` and `max_iterations`, so the first
specialist task still executes before the first ROUTING entry. -/
theorem claim_c3_iteration_ceiling :
    (∀ (m : Int) (f1 f2 : String) (s : MASISState),
      s.iteration_count ≥ s.max_iterations →
        (supervisorRoute m f1 f2 s).should_end = true ∧
        shouldContinueAfterRoute (supervisorRoute m f1 f2 s) = "end") ∧
    (∀ (hitlEnabled : Bool) (clarified : String) (rawPlan : TaskPlan)
        (s : MASISState) (t : SubTask),
      (hitlEnabled = false ∨
        rawPlan.sub_tasks.filter
          (fun u => u.status == TaskStatus.needs_human_input) = []) →
      (findNextTask { rawPlan with original_query := clarified }).1 = some t →
      s.awaiting_human = false →
      shouldContinueAfterPlan
        (supervisorPlanDispatch hitlEnabled clarified rawPlan s) =
          roleName t.assigned_to) := by
  constructor
  · intro m f1 f2 s h
    cases hp : s.task_plan with
    | none =>
      refine ⟨?_, ?_⟩ <;> simp [supervisorRoute, hp, shouldContinueAfterRoute]
    | some plan =>
      refine ⟨?_, ?_⟩ <;>
        simp [supervisorRoute, hp, h, shouldContinueAfterRoute]
  · intro hitlE clar rp s t hOr hfind hawait
    rcases hOr with h | h
    · subst h
      simp [supervisorPlanDispatch, hfind, shouldContinueAfterPlan, hawait]
    · simp [supervisorPlanDispatch, h, hfind, shouldContinueAfterPlan, hawait]

/-- A one-task plan assigning a researcher task, used for claim C3. -/
def c3Plan : TaskPlan :=
  { plan_id := "plan-c3", original_query := "q",
    sub_tasks :=
      [ { task_id := "task-r", description := "gather evidence",
          assigned_to := AgentRole.researcher } ] }

/-- A fresh run state configured with `max_iterations = 0`. -/
def c3State : MASISState := { original_query := "q", max_iterations := 0 }

/-- Counterexample to claim C3 as stated: with `max_iterations = 0`, the
planning step still dispatches its first selected task, so the graph
moves from PLANNING to the `researcher` node — a specialist task
executes before the first ROUTING entry ever runs. -/
theorem claim_c3_counterexample :
    (supervisorPlanDispatch false "q" c3Plan c3State).iteration_count = 0 ∧
    (supervisorPlanDispatch false "q" c3Plan c3State).max_iterations = 0 ∧
    shouldContinueAfterPlan (supervisorPlanDispatch false "q" c3Plan c3State) =
      "researcher" ∧
    ("researcher" : String) ≠ "end" := by
  refine ⟨by decide, by decide, by decide, by decide⟩

/-- A state already at its iteration ceiling. -/
def c3CapState : MASISState :=
  { original_query := "q", task_plan := some c3Plan,
    iteration_count := 5, max_iterations := 5 }

/-- Concrete instantiation of the amended claim C3: at the ceiling the
routing step terminates the run, while the planning dispatch still
routes to the researcher specialist. -/
theorem claim_c3_iteration_ceiling_witness :
    (supervisorRoute 3 "n1" "n2" c3CapState).should_end = true ∧
    shouldContinueAfterRoute (supervisorRoute 3 "n1" "n2" c3CapState) = "end" ∧
    shouldContinueAfterPlan (supervisorPlanDispatch false "q" c3Plan c3State) =
      roleName AgentRole.researcher :=
  ⟨(claim_c3_iteration_ceiling.1 3 "n1" "n2" c3CapState (by decide)).1,
   (claim_c3_iteration_ceiling.1 3 "n1" "n2" c3CapState (by decide)).2,
   claim_c3_iteration_ceiling.2 false "q" c3Plan c3State
     { task_id := "task-r", description := "gather evidence",
       assigned_to := AgentRole.researcher,
       status := TaskStatus.in_progress }
     (Or.inl rfl) (by decide) rfl⟩

end ClaimC3

section ClaimC9

/-- Claim C9: when the supervisor routes (plan present, ceiling not
reached) and some task is `failed` with `retries < 2`, the first such
task has its retries incremented and its status reset to `pending`, and
the route targets it; every `failed` task with `retries ≥ 2` is left in
the plan unchanged, and no failed task makes the route record an error —
a single task failure is never fatal to the run.  (The task list is
the one obtained after the completion-marking pass that precedes the
retry scan in `supervisor_route`.) -/
theorem claim_c9_retry_policy (m : Int) (f1 f2 : String) (s : MASISState)
    (plan : TaskPlan) (hp : s.task_plan = some plan)
    (hcap : s.iteration_count < s.max_iterations) :
    ((∃ u ∈ markCurrentCompleted s.current_task_id plan.sub_tasks,
        u.status = TaskStatus.failed ∧ u.retries < 2) →
      ∃ pre t post,
        markCurrentCompleted s.current_task_id plan.sub_tasks =
          pre ++ t :: post ∧
        (∀ u ∈ pre, ¬(u.status = TaskStatus.failed ∧ u.retries < 2)) ∧
        t.status = TaskStatus.failed ∧ t.retries < 2 ∧
        (supervisorRoute m f1 f2 s).current_task_id = some t.task_id ∧
        (supervisorRoute m f1 f2 s).next_agent = some t.assigned_to ∧
        (supervisorRoute m f1 f2 s).task_plan =
          some { plan with sub_tasks :=
            pre ++ { t with retries := t.retries + 1,
                            status := TaskStatus.pending } :: post } ∧
        (supervisorRoute m f1 f2 s).should_end = s.should_end) ∧
    (∀ u ∈ markCurrentCompleted s.current_task_id plan.sub_tasks,
      u.status = TaskStatus.failed → 2 ≤ u.retries →
      u ∈ planTasksOf (supervisorRoute m f1 f2 s)) ∧
    (supervisorRoute m f1 f2 s).error_log = s.error_log := by
  have hnotge : ¬ s.iteration_count ≥ s.max_iterations := not_le.mpr hcap
  refine ⟨?_, ?_, ?_⟩
  · intro hex
    rcases hr : retryScan (markCurrentCompleted s.current_task_id plan.sub_tasks)
      with _ | r
    · exfalso
      obtain ⟨u, hu, hust, hur⟩ := hex
      have hfalse := retryScan_none_forall _ hr u hu
      have htrue : retryable u = true :=
        (retryable_eq_true_iff u).mpr ⟨hust, hur⟩
      simp [hfalse] at htrue
    · obtain ⟨pre, t, post, hts, hpre, hbt, h1, h2⟩ :=
        retryScan_some_decomp _ r hr
      have hst := (retryable_eq_true_iff t).mp hbt
      refine ⟨pre, t, post, hts, ?_, hst.1, hst.2, ?_, ?_, ?_, ?_⟩
      · intro u hu hc
        have hf := hpre u hu
        have ht := (retryable_eq_true_iff u).mpr hc
        simp [hf] at ht
      · simp [supervisorRoute, hp, hnotge, hr, h1]
      · simp [supervisorRoute, hp, hnotge, hr, h1]
      · simp [supervisorRoute, hp, hnotge, hr, h2]
      · simp [supervisorRoute, hp, hnotge, hr]
  · intro u hu hust hur
    rcases hr : retryScan (markCurrentCompleted s.current_task_id plan.sub_tasks)
      with _ | r
    · have hnp : ¬ u.status = TaskStatus.pending := by
        rw [hust]; intro hc; cases hc
      have hmem := findNextTask_mem_preserved
        { plan with
          sub_tasks := markCurrentCompleted s.current_task_id plan.sub_tasks }
        u hu hnp
      rcases hcr : s.critique with _ | cr
      · rcases hfr : (findNextTask { plan with
            sub_tasks := markCurrentCompleted s.current_task_id
              plan.sub_tasks }).1 with _ | t <;>
          simpa [supervisorRoute, planTasksOf, hp, hnotge, hr, hcr, hfr]
            using hmem
      · by_cases hcond : cr.passes_review = false ∧ s.skeptic_rounds < m
        · simp [supervisorRoute, planTasksOf, hp, hnotge, hr, hcr, hcond, hu]
        · rcases hfr : (findNextTask { plan with
              sub_tasks := markCurrentCompleted s.current_task_id
                plan.sub_tasks }).1 with _ | t <;>
            simpa [supervisorRoute, planTasksOf, hp, hnotge, hr, hcr, hcond,
              hfr] using hmem
    · obtain ⟨pre, t, post, hts, hpre, hbt, h1, h2⟩ :=
        retryScan_some_decomp _ r hr
      have hst := (retryable_eq_true_iff t).mp hbt
      have humem : u ∈ r.2 := by
        rw [h2]
        rw [hts] at hu
        rcases List.mem_append.mp hu with h | h
        · exact List.mem_append.mpr (Or.inl h)
        · rcases List.mem_cons.mp h with rfl | h
          · exact absurd hur (by omega)
          · exact List.mem_append.mpr (Or.inr (List.mem_cons_of_mem _ h))
      simp [supervisorRoute, planTasksOf, hp, hnotge, hr]
      exact humem
  · rcases hr : retryScan (markCurrentCompleted s.current_task_id plan.sub_tasks)
      with _ | r
    · rcases hcr : s.critique with _ | cr
      · rcases hfr : (findNextTask { plan with
            sub_tasks := markCurrentCompleted s.current_task_id
              plan.sub_tasks }).1 with _ | t <;>
          simp [supervisorRoute, hp, hnotge, hr, hcr, hfr]
      · by_cases hcond : cr.passes_review = false ∧ s.skeptic_rounds < m
        · simp [supervisorRoute, hp, hnotge, hr, hcr, hcond]
        · rcases hfr : (findNextTask { plan with
              sub_tasks := markCurrentCompleted s.current_task_id
                plan.sub_tasks }).1 with _ | t <;>
            simp [supervisorRoute, hp, hnotge, hr, hcr, hcond, hfr]
    · simp [supervisorRoute, hp, hnotge, hr]

/-- A plan holding one failed task that exhausted its retries and one
failed task still eligible for retry. -/
def c9Plan : TaskPlan :=
  { plan_id := "plan-c9", original_query := "q",
    sub_tasks :=
      [ { task_id := "task-x", description := "exhausted",
          assigned_to := AgentRole.researcher,
          status := TaskStatus.failed, retries := 2 },
        { task_id := "task-f", description := "flaky",
          assigned_to := AgentRole.researcher,
          status := TaskStatus.failed, retries := 0 } ] }

/-- A routing state over `c9Plan`, below the iteration ceiling. -/
def c9State : MASISState :=
  { original_query := "q", task_plan := some c9Plan }

/-- Concrete instantiation of claim C9 on `c9State`: the exhausted
failed task stays in the plan and the route leaves the error log
untouched. -/
theorem claim_c9_retry_policy_witness :
    ({ task_id := "task-x", description := "exhausted",
       assigned_to := AgentRole.researcher,
       status := TaskStatus.failed, retries := 2 } : SubTask) ∈
        planTasksOf (supervisorRoute 3 "n1" "n2" c9State) ∧
    (supervisorRoute 3 "n1" "n2" c9State).error_log = c9State.error_log := by
  have h := claim_c9_retry_policy 3 "n1" "n2" c9State c9Plan rfl (by decide)
  exact ⟨h.2.1 _ (by decide) (by decide) (by decide), h.2.2⟩

end ClaimC9

/-! Whiteboard message log (`state.py`, `graph.py`) -/

/-- Function `_merge_messages` from `state.py`: append the new messages, then cap
the log at `MAX_MESSAGES = 50` by keeping the first 5 and the last 45
(`merged[:5] + merged[-(MAX_MESSAGES - 5):]`). -/
def mergeMessages {α : Type} (existing newMsgs : List α) : List α :=
  let merged := existing ++ newMsgs
  if merged.length > 50 then
    merged.take 5 ++ merged.drop (merged.length - 45)
  else merged

/-- The message handling actually performed by the graph node wrapper
`_wrap_node` in `graph.py`: plain concatenation of the existing log with
the node's new messages, with no cap.  (`_merge_messages` is defined in
`state.py` but never attached to the `messages` field or called.) -/
def wrapNodeMergeMessages {α : Type} (existing newMsgs : List α) : List α :=
  existing ++ newMsgs

section ClaimC6

set_option maxRecDepth 4000 in
/-- Claim C6 evaluated on the failing input: appending 60 messages one
at a time through the graph wrapper's merge stores all 60 messages — the
cap never fires — whereas iterating the (unwired) `_merge_messages`
policy would store exactly 50: the first 5 plus the last 45. -/
theorem claim_c6_message_cap_not_wired :
    (List.foldl (fun acc m => wrapNodeMergeMessages acc [m]) ([] : List ℕ)
        (List.range 60)).length = 60 ∧
    List.foldl (fun acc m => mergeMessages acc [m]) ([] : List ℕ)
        (List.range 60) =
      (List.range 60).take 5 ++ (List.range 60).drop 15 ∧
    ((List.range 60).take 5 ++ (List.range 60).drop 15).length = 50 := by
  refine ⟨by decide, by decide, by decide⟩

end ClaimC6

/-! Hybrid search (`rag.py`) -/

/-- The lost-in-the-middle walk at the end of `hybrid_search` (`rag.py`):
walk the score-sorted list with its index; an even-indexed item is
appended to the back of the buffer, an odd-indexed item is inserted at
the front (`reordered.insert(0, item)`). -/
def litmWalk {α : Type} (top : List α) : List α :=
  top.enum.foldl
    (fun acc p => if p.1 % 2 = 0 then acc ++ [p.2] else p.2 :: acc) []

/-- The reorder step of `hybrid_search`: applied only when the sorted
top list has more than 2 elements, otherwise the list is returned as
sorted. -/
def hybridTopOrder {α : Type} (top : List α) : List α :=
  if top.length > 2 then litmWalk top else top

/-- Spec-side helper: the items sitting at even indices of an
(index, item) tagged list. -/
def parityEvens {α : Type} (l : List (ℕ × α)) : List α :=
  (l.filter (fun p => p.1 % 2 == 0)).map Prod.snd

/-- Spec-side helper: the items sitting at odd indices of an
(index, item) tagged list. -/
def parityOdds {α : Type} (l : List (ℕ × α)) : List α :=
  (l.filter (fun p => !(p.1 % 2 == 0))).map Prod.snd

/-- The buffer built by the lost-in-the-middle walk is the reversed
odd-indexed block followed by the even-indexed block. -/
theorem litmWalk_foldl {α : Type} (l : List (ℕ × α)) (acc : List α) :
    l.foldl (fun acc p => if p.1 % 2 = 0 then acc ++ [p.2] else p.2 :: acc)
        acc =
      (parityOdds l).reverse ++ acc ++ parityEvens l := by
  induction l generalizing acc with
  | nil => simp [parityOdds, parityEvens]
  | cons p l ih =>
    by_cases hp : p.1 % 2 = 0
    · simp only [List.foldl_cons, if_pos hp]
      rw [ih]
      simp [parityOdds, parityEvens, hp]
    · simp only [List.foldl_cons, if_neg hp]
      rw [ih]
      simp [parityOdds, parityEvens, hp]

section ClaimC7

/-- A score-descending fused top list with five distinct chunks. -/
def c7Top : List (String × ℕ) :=
  [("a", 50), ("b", 40), ("c", 30), ("d", 20), ("e", 10)]

/-- Counterexample to claim C7 as stated: on a strictly score-descending
top list the walk puts the highest-fused-score item ("a", the head of
the sorted input) at the exact middle position of the output, and the
two lowest-scored items at the two ends — the opposite of clustering the
highest items at both ends. -/
theorem claim_c7_counterexample :
    hybridTopOrder c7Top =
      [("d", 20), ("b", 40), ("a", 50), ("c", 30), ("e", 10)] ∧
    (hybridTopOrder c7Top).head? = some ("d", 20) ∧
    (hybridTopOrder c7Top).getLast? = some ("e", 10) ∧
    (hybridTopOrder c7Top).get? 2 = some ("a", 50) ∧
    (∀ p ∈ c7Top, p.2 ≤ 50) ∧
    (20 : ℕ) < 50 ∧ (10 : ℕ) < 50 := by
  refine ⟨by decide, by decide, by decide, by decide, by decide, by decide,
    by decide⟩

/-- Claim C7 (amended): whenever the fused, score-descending top list
has more than 2 elements, the returned order is obtained by walking the
sorted list placing even-indexed items at the back and odd-indexed items
at the front of an output buffer; the result is therefore the reversed
odd-indexed block followed by the even-indexed block, which places the
highest-fused-score items in the interior of the sequence and the
lowest-scored items at its two ends (not the highest at the ends). -/
theorem claim_c7_litm_reorder {α : Type} (l : List α) (h : 2 < l.length) :
    hybridTopOrder l = litmWalk l ∧
    hybridTopOrder l = (parityOdds l.enum).reverse ++ parityEvens l.enum := by
  have h1 : hybridTopOrder l = litmWalk l := if_pos h
  refine ⟨h1, ?_⟩
  rw [h1, litmWalk, litmWalk_foldl]
  simp

/-- Concrete instantiation of the amended claim C7 on `c7Top`. -/
theorem claim_c7_litm_reorder_witness :
    hybridTopOrder c7Top =
      (parityOdds c7Top.enum).reverse ++ parityEvens c7Top.enum ∧
    (parityOdds c7Top.enum).reverse ++ parityEvens c7Top.enum =
      [("d", 20), ("b", 40), ("a", 50), ("c", 30), ("e", 10)] :=
  ⟨(claim_c7_litm_reorder c7Top (by decide)).2, by decide⟩

end ClaimC7

/-- A langchain document as consumed by the fusion loops of
`hybrid_search`: its page content and the two metadata entries read by
the loop (`chunk_id`, `source`), which may be absent. -/
structure RDoc where
  page_content : String := ""
  chunk_id : Option String := none
  source : Option String := none
deriving DecidableEq

/-- An entry of the fused map built by `hybrid_search`: the dict
`{content, source, chunk_id, metadata, rrf_score, semantic_score}`
(the metadata passthrough is not consulted afterwards and is elided). -/
structure FusedEntry where
  content : String
  source : String
  chunk_id : String
  rrf_score : ℚ
  semantic_score : ℚ
deriving DecidableEq

/-- Key of a semantic result at a given rank:
`doc.metadata.get("chunk_id", f"sem-{rank}")`. -/
def semKey (d : RDoc) (rank : ℕ) : String :=
  d.chunk_id.getD ("sem-" ++ toString rank)

/-- Key of a keyword result at a given rank:
`doc.metadata.get("chunk_id", f"kw-{rank}")`. -/
def kwKey (d : RDoc) (rank : ℕ) : String :=
  d.chunk_id.getD ("kw-" ++ toString rank)

/-- One fusion-loop step on the insertion-ordered map: if the key is
absent, insert `base` (whose `rrf_score` starts at 0) at the back, then
add `v` to that entry (field `rrf_score`) — mirroring
`if cid not in fused: fused[cid] = {...}` followed by
`fused[cid]["rrf_score"] += v`. -/
def rrfUpsert (m : List (String × FusedEntry)) (cid : String)
    (base : FusedEntry) (v : ℚ) : List (String × FusedEntry) :=
  match m with
  | [] => [(cid, { base with rrf_score := base.rrf_score + v })]
  | (k, e) :: rest =>
    if k = cid then (k, { e with rrf_score := e.rrf_score + v }) :: rest
    else (k, e) :: rrfUpsert rest cid base v

/-- The semantic fusion loop of `hybrid_search`
(`for rank, (doc, score) in enumerate(semantic_results)`). -/
def fuseSemantic :
    List (String × FusedEntry) → List (RDoc × ℚ) → ℕ →
      List (String × FusedEntry)
  | m, [], _ => m
  | m, (d, score) :: rest, rank =>
    let cid := semKey d rank
    let base : FusedEntry :=
      { content := d.page_content, source := d.source.getD "unknown",
        chunk_id := cid, rrf_score := 0, semantic_score := score }
    fuseSemantic (rrfUpsert m cid base (1 / (60 + (rank : ℚ) + 1))) rest
      (rank + 1)

/-- The keyword fusion loop of `hybrid_search`; entries created here
carry `semantic_score = 0`. -/
def fuseKeyword :
    List (String × FusedEntry) → List (RDoc × ℚ) → ℕ →
      List (String × FusedEntry)
  | m, [], _ => m
  | m, (d, _) :: rest, rank =>
    let cid := kwKey d rank
    let base : FusedEntry :=
      { content := d.page_content, source := d.source.getD "unknown",
        chunk_id := cid, rrf_score := 0, semantic_score := 0 }
    fuseKeyword (rrfUpsert m cid base (1 / (60 + (rank : ℚ) + 1))) rest
      (rank + 1)

/-- The fused map of `hybrid_search`: semantic results are folded in
first, then keyword results (RRF constant 60). -/
def hybridFuse (sem kw : List (RDoc × ℚ)) : List (String × FusedEntry) :=
  fuseKeyword (fuseSemantic [] sem 0) kw 0

/-- The fused score a chunk id holds in the map (0 when absent). -/
def rrfScoreOf (m : List (String × FusedEntry)) (cid : String) : ℚ :=
  match m with
  | [] => 0
  | (k, e) :: rest => if k = cid then e.rrf_score else rrfScoreOf rest cid

/-- Spec-side definition, following the specification text: a chunk at
0-based rank `r` of a result list contributes `1 / (60 + r + 1)` to the
fused score of its key. -/
def rrfContribSpec (key : RDoc → ℕ → String) :
    List (RDoc × ℚ) → ℕ → String → ℚ
  | [], _, _ => 0
  | (d, _) :: rest, rank, cid =>
    (if key d rank = cid then 1 / (60 + (rank : ℚ) + 1) else 0) +
      rrfContribSpec key rest (rank + 1) cid

/-- Effect of one upsert on the score of an arbitrary key. -/
theorem rrfScoreOf_upsert (m : List (String × FusedEntry)) (cid cid' : String)
    (base : FusedEntry) (v : ℚ) (hb : base.rrf_score = 0) :
    rrfScoreOf (rrfUpsert m cid base v) cid' =
      rrfScoreOf m cid' + (if cid = cid' then v else 0) := by
  induction m with
  | nil =>
    simp only [rrfUpsert, rrfScoreOf]
    by_cases h : cid = cid'
    · rw [if_pos h, if_pos h, hb]
    · rw [if_neg h, if_neg h]; ring
  | cons p rest ih =>
    obtain ⟨k, e⟩ := p
    simp only [rrfUpsert]
    by_cases hk : k = cid
    · rw [if_pos hk]
      simp only [rrfScoreOf]
      by_cases h' : k = cid'
      · rw [if_pos h', if_pos h', if_pos (hk.symm.trans h')]
      · rw [if_neg h', if_neg h', if_neg (fun hh => h' (hk.trans hh))]
        ring
    · rw [if_neg hk]
      simp only [rrfScoreOf]
      by_cases h' : k = cid'
      · rw [if_pos h', if_pos h',
          if_neg (fun hh => hk ((hh.trans h'.symm).symm))]
        ring
      · rw [if_neg h', if_neg h']
        exact ih

/-- The semantic loop adds exactly the spec contributions. -/
theorem rrfScoreOf_fuseSemantic (docs : List (RDoc × ℚ))
    (m : List (String × FusedEntry)) (rank : ℕ) (cid : String) :
    rrfScoreOf (fuseSemantic m docs rank) cid =
      rrfScoreOf m cid + rrfContribSpec semKey docs rank cid := by
  induction docs generalizing m rank with
  | nil => simp [fuseSemantic, rrfContribSpec]
  | cons p rest ih =>
    obtain ⟨d, score⟩ := p
    simp only [fuseSemantic, rrfContribSpec]
    rw [ih, rrfScoreOf_upsert _ _ _ _ _ rfl]
    ring

/-- The keyword loop adds exactly the spec contributions. -/
theorem rrfScoreOf_fuseKeyword (docs : List (RDoc × ℚ))
    (m : List (String × FusedEntry)) (rank : ℕ) (cid : String) :
    rrfScoreOf (fuseKeyword m docs rank) cid =
      rrfScoreOf m cid + rrfContribSpec kwKey docs rank cid := by
  induction docs generalizing m rank with
  | nil => simp [fuseKeyword, rrfContribSpec]
  | cons p rest ih =>
    obtain ⟨d, score⟩ := p
    simp only [fuseKeyword, rrfContribSpec]
    rw [ih, rrfScoreOf_upsert _ _ _ _ _ rfl]
    ring

section ClaimC8

/-- The two documents of the concrete fusion check. -/
def c8DocA : RDoc := { page_content := "alpha", chunk_id := some "A" }

/-- Second document of the concrete fusion check. -/
def c8DocB : RDoc := { page_content := "beta", chunk_id := some "B" }

/-- Semantic results `[A, B]` with their scores. -/
def c8Sem : List (RDoc × ℚ) := [(c8DocA, 9/10), (c8DocB, 8/10)]

/-- Keyword results `[A]`. -/
def c8Kw : List (RDoc × ℚ) := [(c8DocA, 1/2)]

/-- Claim C8: every chunk at 0-based rank `r` of the semantic or keyword
list contributes `1/(60 + r + 1)` to the fused score of its chunk id,
and a chunk in both lists accumulates both contributions; consequently
for semantic `[A, B]` and keyword `[A]`, A scores `1/61 + 1/61`, B
scores `1/62`, and A strictly exceeds B. -/
theorem claim_c8_rrf_fusion :
    (∀ (sem kw : List (RDoc × ℚ)) (cid : String),
      rrfScoreOf (hybridFuse sem kw) cid =
        rrfContribSpec semKey sem 0 cid + rrfContribSpec kwKey kw 0 cid) ∧
    rrfScoreOf (hybridFuse c8Sem c8Kw) "A" = 1/61 + 1/61 ∧
    rrfScoreOf (hybridFuse c8Sem c8Kw) "B" = 1/62 ∧
    ((1 : ℚ)/61 + 1/61) > 1/62 := by
  have hgen : ∀ (sem kw : List (RDoc × ℚ)) (cid : String),
      rrfScoreOf (hybridFuse sem kw) cid =
        rrfContribSpec semKey sem 0 cid + rrfContribSpec kwKey kw 0 cid := by
    intro sem kw cid
    rw [hybridFuse, rrfScoreOf_fuseKeyword, rrfScoreOf_fuseSemantic]
    simp [rrfScoreOf]
  have hAB : (("A" : String) = "B") = False := eq_false (by decide)
  have hBA : (("B" : String) = "A") = False := eq_false (by decide)
  refine ⟨hgen, ?_, ?_, by norm_num⟩
  · rw [hgen]
    norm_num [c8Sem, c8Kw, rrfContribSpec, semKey, kwKey, c8DocA, c8DocB,
      hAB, hBA]
  · rw [hgen]
    norm_num [c8Sem, c8Kw, rrfContribSpec, semKey, kwKey, c8DocA, c8DocB,
      hAB, hBA]

end ClaimC8

/-! Synthesizer confidence aggregation (`synthesizer.py`) and
citation audit (`citation_engine.py`) -/

/-- Confidence levels, mirroring `ConfidenceLevel` in `schemas.py`. -/
inductive ConfidenceLevel where
  | high
  | medium
  | low
deriving DecidableEq

/-- A retrieved chunk, mirroring `DocumentChunk` in `schemas.py`
(the free-form metadata dict is elided; no control flow reads it). -/
structure DocumentChunk where
  chunk_id : String
  source_document : String := ""
  page_or_section : String := ""
  content : String := ""
  relevance_score : ℚ := 0
deriving DecidableEq

/-- A citation, mirroring `Citation` in `schemas.py`: its only fields
are `citation_id`, `claim`, `evidence` and `confidence`. -/
structure Citation where
  citation_id : String
  claim : String
  evidence : List DocumentChunk
  confidence : ℚ := 0
deriving DecidableEq

/-- A retrieved-chunk dict as produced by `hybrid_search` and stored in
`state.retrieved_chunks`; `.get` calls may find the keys absent. -/
structure ChunkDict where
  chunk_id : Option String := none
  source : Option String := none
  content : String := ""
  rrf_score : Option ℚ := none
  semantic_score : Option ℚ := none
deriving DecidableEq

/-- The Python attribute access `c.source_chunk_id` performed at
`synthesizer.py` line 137: `schemas.Citation` declares no such field, so
pydantic raises `AttributeError`; modelled as `Except.error`. -/
def citationSourceChunkId (_ : Citation) : Except String String :=
  Except.error "AttributeError: Citation has no field source_chunk_id"

/-- The set comprehension
`{c.source_chunk_id for c in citations if c.source_chunk_id}` of
`synthesizer.py`: each element evaluates the attribute access (which
raises); the truthiness filter keeps non-empty strings.  The set is
modelled as the list of kept values (deduplicated by the caller). -/
def citedSourcesScan : List Citation → Except String (List String)
  | [] => Except.ok []
  | c :: cs =>
    match citationSourceChunkId c with
    | Except.error e => Except.error e
    | Except.ok v =>
      match citedSourcesScan cs with
      | Except.error e => Except.error e
      | Except.ok rest => Except.ok (if v = "" then rest else v :: rest)

/-- Expression `state.critique.confidence_score if state.critique else 0.0`. -/
def skepticConfidenceOf (critique : Option CritiqueResult) : ℚ :=
  match critique with
  | some c => c.confidence_score
  | none => 0

/-- The level thresholds of `synthesizer_node`: HIGH at `>= 0.8`,
MEDIUM at `>= 0.5`, LOW otherwise. -/
def confidenceLevelOf (fc : ℚ) : ConfidenceLevel :=
  if fc ≥ 0.8 then ConfidenceLevel.high
  else if fc ≥ 0.5 then ConfidenceLevel.medium
  else ConfidenceLevel.low

/-- The confidence aggregation block of `synthesizer_node`
(`synthesizer.py` lines 125-153), producing the final confidence and
its level — or the exception the block raises. -/
def synthesizerConfidence (critique : Option CritiqueResult)
    (citations : List Citation) (chunks : List ChunkDict) :
    Except String (ℚ × ConfidenceLevel) :=
  let skeptic_confidence := skepticConfidenceOf critique
  let expected_citations : ℚ := ((max chunks.length 1 : ℕ) : ℚ)
  let cit_rate := min ((citations.length : ℚ) / expected_citations) 1
  match citedSourcesScan citations with
  | Except.error e => Except.error e
  | Except.ok cited =>
    let total_chunks : ℚ := ((max chunks.length 1 : ℕ) : ℚ)
    let evidence_coverage := min ((cited.dedup.length : ℚ) / total_chunks) 1
    let final_confidence := 0.60 * skeptic_confidence + 0.25 * cit_rate +
      0.15 * evidence_coverage
    Except.ok (final_confidence, confidenceLevelOf final_confidence)

section ClaimC1

/-- A one-element retrieved-chunk list. -/
def c1Chunks : List ChunkDict := [{ chunk_id := some "c1" }]

/-- The citation `_build_citations` produces when the narrative cites
`[Source 1]` over `c1Chunks`. -/
def c1Citations : List Citation :=
  [{ citation_id := "cite-1", claim := "Revenue grew [Source 1].",
     evidence := [{ chunk_id := "c1" }], confidence := 1/2 }]

/-- Claim C1 fails as a code bug: whenever at least one citation was
extracted, the confidence block raises `AttributeError` — the code reads
`c.source_chunk_id`, a field `Citation` does not have — instead of
computing the documented formula; only with zero citations does it
return, and then `finalConfidence = 0.60 * skepticConfidence` with the
documented level thresholds.  The third conjunct evaluates the failing
input built from one retrieved chunk cited once. -/
theorem claim_c1_confidence_attribute_error :
    (∀ (critique : Option CritiqueResult) (chunks : List ChunkDict)
        (c : Citation) (cs : List Citation),
      synthesizerConfidence critique (c :: cs) chunks =
        Except.error
          "AttributeError: Citation has no field source_chunk_id") ∧
    (∀ (critique : Option CritiqueResult) (chunks : List ChunkDict),
      synthesizerConfidence critique [] chunks =
        Except.ok (0.60 * skepticConfidenceOf critique,
          confidenceLevelOf (0.60 * skepticConfidenceOf critique))) ∧
    synthesizerConfidence none c1Citations c1Chunks =
      Except.error "AttributeError: Citation has no field source_chunk_id" := by
  refine ⟨fun critique chunks c cs => rfl, ?_, rfl⟩
  intro critique chunks
  simp only [synthesizerConfidence, citedSourcesScan]
  norm_num

end ClaimC1

/-- The final report, mirroring `FinalReport` in `schemas.py` restricted
to the fields `validate_report` reads. -/
structure FinalReport where
  query : String := ""
  executive_summary : String := ""
  detailed_analysis : String := ""
  recommendations : List String := []
  citations : List Citation := []
deriving DecidableEq

/-- The keys of the `CitationEngine._chunks` dict:
`chunk.get("chunk_id", f"idx-{i}")` for each retrieved chunk. -/
def chunkKeys (chunks : List ChunkDict) : List String :=
  chunks.enum.map (fun p => p.2.chunk_id.getD ("idx-" ++ toString p.1))

/-- The membership test of `validate_report`: an evidence chunk id is
known iff it is a key of the `_chunks` dict or some retrieved chunk
carries it as `chunk_id` (`c.get("chunk_id") == ev.chunk_id`). -/
def knownChunkId (chunks : List ChunkDict) (cid : String) : Bool :=
  (chunkKeys chunks).contains cid ||
    chunks.any (fun c => c.chunk_id == some cid)

/-- An entry of the audit's `issues` list; the two message shapes of
`validate_report` are modelled structurally. -/
inductive AuditIssue where
  | noEvidence (citationId : String)
  | unknownChunk (citationId : String) (chunkId : String)
deriving DecidableEq

/-- The audit result (`CitationAudit` in `citation_engine.py`).  The
`uncited_statements` field — a regex heuristic over the narrative that
this audit merely reports and that no pass/fail logic consults — is
elided. -/
structure CitationAudit where
  total_citations : ℕ
  valid_citations : ℕ
  issues : List AuditIssue
  orphaned_claims : List String
  coverage_score : ℚ
deriving DecidableEq

/-- The inner evidence loop of `validate_report`: unknown chunk ids are
recorded as issues, known chunk ids increment `valid_citations`. -/
def auditEvidence (known : String → Bool) (citId : String) :
    List DocumentChunk → List AuditIssue × ℕ
  | [] => ([], 0)
  | ev :: rest =>
    let r := auditEvidence known citId rest
    if known ev.chunk_id then (r.1, r.2 + 1)
    else (AuditIssue.unknownChunk citId ev.chunk_id :: r.1, r.2)

/-- The outer citation loop of `validate_report`: a citation with empty
evidence is recorded as an issue and an orphaned claim and skipped;
otherwise its evidence entries are checked one by one. -/
def auditCitations (known : String → Bool) :
    List Citation → List AuditIssue × ℕ × List String
  | [] => ([], 0, [])
  | cit :: rest =>
    let r := auditCitations known rest
    if cit.evidence.isEmpty then
      (AuditIssue.noEvidence cit.citation_id :: r.1, r.2.1,
        cit.claim :: r.2.2)
    else
      let e := auditEvidence known cit.citation_id cit.evidence
      (e.1 ++ r.1, e.2 + r.2.1, r.2.2)

/-- Method `CitationEngine.validate_report` (`citation_engine.py`). -/
def validateReport (chunks : List ChunkDict) (report : FinalReport) :
    CitationAudit :=
  let r := auditCitations (knownChunkId chunks) report.citations
  { total_citations := report.citations.length,
    valid_citations := r.2.1,
    issues := r.1,
    orphaned_claims := r.2.2,
    coverage_score := (r.2.1 : ℚ) / ((max report.citations.length 1 : ℕ) : ℚ) }

/-- Flag `passes_audit` of `CitationAudit.to_dict`: zero issues and coverage
at least 0.7. -/
def passesAudit (a : CitationAudit) : Bool :=
  a.issues.isEmpty && decide ((0.7 : ℚ) ≤ a.coverage_score)

/-- Each orphaned citation contributes its issue and its claim. -/
theorem auditCitations_orphan_mem (known : String → Bool)
    (cits : List Citation) (cit : Citation) (h : cit ∈ cits)
    (he : cit.evidence = []) :
    AuditIssue.noEvidence cit.citation_id ∈ (auditCitations known cits).1 ∧
    cit.claim ∈ (auditCitations known cits).2.2 := by
  induction cits with
  | nil => simp at h
  | cons c rest ih =>
    rcases List.mem_cons.mp h with rfl | h
    · simp [auditCitations, he]
    · obtain ⟨h1, h2⟩ := ih h
      by_cases hc : c.evidence.isEmpty
      · simp only [auditCitations, if_pos hc]
        exact ⟨List.mem_cons_of_mem _ h1, List.mem_cons_of_mem _ h2⟩
      · simp only [auditCitations, if_neg hc]
        exact ⟨List.mem_append.mpr (Or.inr h1), h2⟩

/-- Every unknown evidence entry of the inner loop yields its issue. -/
theorem auditEvidence_unknown_mem (known : String → Bool) (citId : String)
    (evs : List DocumentChunk) (ev : DocumentChunk) (h : ev ∈ evs)
    (hunk : known ev.chunk_id = false) :
    AuditIssue.unknownChunk citId ev.chunk_id ∈
      (auditEvidence known citId evs).1 := by
  induction evs with
  | nil => simp at h
  | cons e rest ih =>
    rcases List.mem_cons.mp h with rfl | h
    · simp [auditEvidence, hunk]
    · by_cases hk : known e.chunk_id
      · simp only [auditEvidence, if_pos hk]
        exact ih h
      · simp only [auditEvidence, if_neg hk]
        exact List.mem_cons_of_mem _ (ih h)

/-- Every unknown evidence entry of a non-orphan citation yields its
issue in the overall audit. -/
theorem auditCitations_unknown_mem (known : String → Bool)
    (cits : List Citation) (cit : Citation) (ev : DocumentChunk)
    (h : cit ∈ cits) (hne : ¬ cit.evidence.isEmpty) (hev : ev ∈ cit.evidence)
    (hunk : known ev.chunk_id = false) :
    AuditIssue.unknownChunk cit.citation_id ev.chunk_id ∈
      (auditCitations known cits).1 := by
  induction cits with
  | nil => simp at h
  | cons c rest ih
  =>
    rcases List.mem_cons.mp h with rfl | h
    · simp only [auditCitations, if_neg hne]
      exact List.mem_append.mpr
        (Or.inl (auditEvidence_unknown_mem known cit.citation_id _ ev hev hunk))
    · by_cases hc : c.evidence.isEmpty
      · simp only [auditCitations, if_pos hc]
        exact List.mem_cons_of_mem _ (ih h)
      · simp only [auditCitations, if_neg hc]
        exact List.mem_append.mpr (Or.inr (ih h))

/-- The inner loop counts exactly the known evidence entries. -/
theorem auditEvidence_count (known : String → Bool) (citId : String)
    (evs : List DocumentChunk) :
    (auditEvidence known citId evs).2 =
      evs.countP (fun ev => known ev.chunk_id) := by
  induction evs with
  | nil => simp [auditEvidence]
  | cons e rest ih =>
    by_cases hk : known e.chunk_id
    · simp [auditEvidence, hk, ih, List.countP_cons]
    · simp [auditEvidence, hk, ih, List.countP_cons]

/-- The outer loop sums the known-evidence counts of the non-orphan
citations. -/
theorem auditCitations_count (known : String → Bool)
    (cits : List Citation) :
    (auditCitations known cits).2.1 =
      (cits.map (fun cit =>
        if cit.evidence.isEmpty then 0
        else cit.evidence.countP (fun ev => known ev.chunk_id))).sum := by
  induction cits with
  | nil => simp [auditCitations]
  | cons c rest ih =>
    by_cases hc : c.evidence.isEmpty
    · have hce : c.evidence = [] := List.isEmpty_iff.mp hc
      simp [auditCitations, hc, hce, ih]
    · have hce : ¬ c.evidence = [] := by
        simpa [List.isEmpty_iff] using hc
      simp [auditCitations, hc, hce, ih, auditEvidence_count]

section ClaimC4

/-- Claim C4: `validate_report` records each empty-evidence citation as
both an issue and an orphaned claim; each evidence entry whose chunk id
is unknown is recorded as an issue, while each known one increments
`valid_citations` (counted per evidence entry); the coverage score is
`validCitations / max(totalCitations, 1)`; and the report passes audit
iff the issues list is empty and the coverage score is at least 0.7. -/
theorem claim_c4_validate_report (chunks : List ChunkDict)
    (report : FinalReport) :
    (∀ cit ∈ report.citations, cit.evidence = [] →
      AuditIssue.noEvidence cit.citation_id ∈
          (validateReport chunks report).issues ∧
        cit.claim ∈ (validateReport chunks report).orphaned_claims) ∧
    (∀ cit ∈ report.citations, ∀ ev ∈ cit.evidence,
      cit.evidence ≠ [] → knownChunkId chunks ev.chunk_id = false →
      AuditIssue.unknownChunk cit.citation_id ev.chunk_id ∈
        (validateReport chunks report).issues) ∧
    (validateReport chunks report).valid_citations =
      (report.citations.map (fun cit =>
        if cit.evidence.isEmpty then 0
        else cit.evidence.countP
          (fun ev => knownChunkId chunks ev.chunk_id))).sum ∧
    (validateReport chunks report).total_citations =
      report.citations.length ∧
    (validateReport chunks report).coverage_score =
      ((validateReport chunks report).valid_citations : ℚ) /
        ((max (validateReport chunks report).total_citations 1 : ℕ) : ℚ) ∧
    (passesAudit (validateReport chunks report) = true ↔
      ((validateReport chunks report).issues = [] ∧
        (0.7 : ℚ) ≤ (validateReport chunks report).coverage_score)) := by
  refine ⟨?_, ?_, ?_, rfl, rfl, ?_⟩
  · intro cit hc he
    exact auditCitations_orphan_mem (knownChunkId chunks) _ cit hc he
  · intro cit hc ev hev hne hunk
    exact auditCitations_unknown_mem (knownChunkId chunks) _ cit ev hc
      (by simpa using hne) hev hunk
  · exact auditCitations_count (knownChunkId chunks) report.citations
  · simp [passesAudit, List.isEmpty_iff]

/-- Retrieved chunks for the claim C4 instantiation. -/
def c4Chunks : List ChunkDict := [{ chunk_id := some "c1" }]

/-- An orphaned citation (no evidence). -/
def c4OrphanCit : Citation :=
  { citation_id := "cite-orphan", claim := "unsupported claim",
    evidence := [] }

/-- A citation tracing to the known chunk. -/
def c4GoodCit : Citation :=
  { citation_id := "cite-good", claim := "supported claim",
    evidence := [{ chunk_id := "c1" }] }

/-- The unknown evidence chunk of the mistraced citation. -/
def c4BadEv : DocumentChunk := { chunk_id := "zz" }

/-- A citation referencing an unknown chunk. -/
def c4BadCit : Citation :=
  { citation_id := "cite-bad", claim := "mistraced claim",
    evidence := [c4BadEv] }

/-- A report with an orphaned citation, a valid citation and a citation
referencing an unknown chunk. -/
def c4Report : FinalReport :=
  { detailed_analysis := "Revenue is 2.3B [Source 1].",
    citations := [c4OrphanCit, c4GoodCit, c4BadCit] }

/-- Concrete instantiation of claim C4 on `c4Report` over `c4Chunks`:
the orphan and the unknown reference are surfaced, one evidence entry is
valid, and the report does not pass audit. -/
theorem claim_c4_validate_report_witness :
    AuditIssue.noEvidence "cite-orphan" ∈
      (validateReport c4Chunks c4Report).issues ∧
    AuditIssue.unknownChunk "cite-bad" "zz" ∈
      (validateReport c4Chunks c4Report).issues ∧
    (validateReport c4Chunks c4Report).valid_citations = 1 ∧
    passesAudit (validateReport c4Chunks c4Report) = false := by
  have h := claim_c4_validate_report c4Chunks c4Report
  refine ⟨?_, ?_, ?_, by decide⟩
  · exact (h.1 c4OrphanCit (by decide) rfl).1
  · exact h.2.1 c4BadCit (by decide) c4BadEv (by decide) (by decide)
      (by decide)
  · rw [h.2.2.1]; decide

end ClaimC4

end Masis
